/-
Verification of the spindump-to-flamegraph converter (src/flamegraph.py).

The development shallowly embeds the parsing, layout and color code of the
script into Lean:
* text lines are `List Char`; Python strings built by the code are `String`;
* the frame tree is the nested inductive `FrameSample`;
* `ThreadTrace` parsing mirrors the Python constructor's mutable state
  (the list of `FrameSample` objects mutated in place) with an arena of
  `Frame` records addressed by index, exactly reproducing the stack slicing
  `stack[:nested_level - 1]` including its negative-index behaviour at
  `nested_level = 0`;
* Python `assert` failures become `Except ParseError` / `Except InterpError`;
* the floating-point color engine is idealised over the reals `ℝ`, with
  Python `int()` truncation modelled by `pyTrunc`.
-/
import Mathlib

/-! ## Errors raised by the script (Python assertion failures) -/

inductive ParseError where
  | noDigitRun
  | badIndentation
  | multipleRoots
  | emptySection
  | missingColon
  deriving DecidableEq, Repr

/-! ## Small Python-string helpers -/

/-- Python `str.strip()` on a list of characters. -/
def pyStrip (s : List Char) : List Char :=
  ((s.dropWhile Char.isWhitespace).reverse.dropWhile Char.isWhitespace).reverse

/-- Python `str.lstrip()`. -/
def pyLStrip (s : List Char) : List Char := s.dropWhile Char.isWhitespace

/-- Value of `int(...)` on a run of decimal digits. -/
def natOfDigits (ds : List Char) : Nat :=
  ds.foldl (fun a c => a * 10 + (c.toNat - '0'.toNat)) 0

/-- Python `needle in hay` substring test. -/
def hasSubstring (needle : List Char) : List Char → Bool
  | [] => needle.isPrefixOf []
  | c :: rest => needle.isPrefixOf (c :: rest) || hasSubstring needle rest

/-! ## FrameSample: the frame tree (class `FrameSample`) -/

/-- One stack frame with its sample count and ordered children
(`FrameSample.__init__` / `add_child_sample`). -/
inductive FrameSample where
  | mk (frame : String) (sample_count : Nat) (child_samples : List FrameSample)

def FrameSample.frame : FrameSample → String
  | .mk f _ _ => f

def FrameSample.sample_count : FrameSample → Nat
  | .mk _ n _ => n

def FrameSample.child_samples : FrameSample → List FrameSample
  | .mk _ _ cs => cs

mutual

/-- `FrameSample.height`: 1 for a leaf, else 1 + max over children. -/
def FrameSample.height : FrameSample → Nat
  | .mk _ _ cs => if cs.isEmpty then 1 else FrameSample.childHeightsMax cs + 1

/-- `max(child_heights)` over a list of children (0 for the empty list,
which the source never takes the max of). -/
def FrameSample.childHeightsMax : List FrameSample → Nat
  | [] => 0
  | c :: cs => max c.height (FrameSample.childHeightsMax cs)

end

mutual

/-- `FrameSample.__items_generator`: yields `(frame, start, depth)` for the
node, then recursively for each child with depth + 1 and a running start. -/
def FrameSample.itemsGenerator : FrameSample → Nat → Nat → List (FrameSample × Nat × Nat)
  | .mk f n cs, start, depth =>
    (.mk f n cs, start, depth) :: FrameSample.itemsChildren cs start (depth + 1)

/-- The loop over `child_samples` inside `__items_generator`, with the
running `child_start` accumulator. -/
def FrameSample.itemsChildren : List FrameSample → Nat → Nat → List (FrameSample × Nat × Nat)
  | [], _, _ => []
  | c :: cs, child_start, depth =>
    FrameSample.itemsGenerator c child_start depth ++
      FrameSample.itemsChildren cs (child_start + c.sample_count) depth

end

/-- `FrameSample.iteritems`: the generator started at `(0, 0)`. -/
def FrameSample.iteritems (f : FrameSample) : List (FrameSample × Nat × Nat) :=
  f.itemsGenerator 0 0

/-! ## ThreadTrace: parsing one thread block (class `ThreadTrace`)

The Python constructor builds the tree by mutating `FrameSample` objects held
on a stack.  We mirror the mutation with an arena: `Frame` records addressed
by their index of creation; `add_child_sample` appends the child's index to
the parent record's `children`. -/

/-- One `FrameSample` object in the arena; `children` holds arena indices. -/
structure Frame where
  frame : String
  sample_count : Nat
  children : List Nat
  deriving DecidableEq, Repr

/-- The constructor's mutable state: the objects created so far,
`self.root_frame`, and the `stack` of arena indices (bottom first, exactly
like the Python list). -/
structure ThreadState where
  arena : List Frame
  root_frame : Option Nat
  stack : List Nat
  deriving DecidableEq, Repr

/-- `stack[-1].add_child_sample(frame_sample)`: append `childIdx` to the
children of the frame at `parentIdx`. -/
def addChildSample (arena : List Frame) (parentIdx childIdx : Nat) : List Frame :=
  match arena[parentIdx]? with
  | some p => arena.set parentIdx ⟨p.frame, p.sample_count, p.children ++ [childIdx]⟩
  | none => arena

/-- The stop index of the Python slice `stack[:nested_level - 1]` on a list of
length `len`: `nested_level - 1` elements are kept when `nested_level ≥ 1`;
for `nested_level = 0` the slice is `stack[:-1]`, keeping `len - 1`. -/
def sliceStop (len nested_level : Nat) : Nat :=
  match nested_level with
  | 0 => len - 1
  | m + 1 => m

/-- `stack = stack[:nested_level - 1] if len(stack) >= nested_level`. -/
def truncatedStack (stack : List Nat) (nested_level : Nat) : List Nat :=
  if nested_level ≤ stack.length then stack.take (sliceStop stack.length nested_level)
  else stack

/-- One iteration of the `for trace_line in trace_lines[1:]` loop in
`ThreadTrace.__init__`. -/
def ThreadTrace.parseLine (s : ThreadState) (line : List Char) :
    Except ParseError ThreadState :=
  match line.findIdx? Char.isDigit with
  | none => .error .noDigitRun
  | some indentation =>
    if indentation % 2 ≠ 0 then .error .badIndentation
    else
      let nested_level := indentation / 2
      let stack := truncatedStack s.stack nested_level
      let digits := (line.drop indentation).takeWhile Char.isDigit
      let sample_count := natOfDigits digits
      let frame := ((line.drop (indentation + digits.length + 1)).asString)
      let newIdx := s.arena.length
      let arena := s.arena ++ [⟨frame, sample_count, []⟩]
      match stack.getLast? with
      | some parent =>
        .ok ⟨addChildSample arena parent newIdx, s.root_frame, stack ++ [newIdx]⟩
      | none =>
        match s.root_frame with
        | some _ => .error .multipleRoots
        | none => .ok ⟨arena, some newIdx, stack ++ [newIdx]⟩

/-- Parsed thread block: `description`, plus the constructor's final object
graph (`root_frame` points into `arena`). -/
structure ThreadTrace where
  description : String
  arena : List Frame
  root_frame : Option Nat
  deriving DecidableEq, Repr

/-- `ThreadTrace.__init__` over all lines of the block (`trace_lines[0]` is
the description; the constructor indexes it, so an empty block fails). -/
def ThreadTrace.ofLines : List (List Char) → Except ParseError ThreadTrace
  | [] => .error .emptySection
  | descr :: body => do
    let s ← body.foldlM ThreadTrace.parseLine ⟨[], none, []⟩
    pure ⟨(pyStrip descr).asString, s.arena, s.root_frame⟩

/-- Read the `FrameSample` value reachable from index `idx` of the arena
(`fuel` bounds the recursion; any fuel ≥ the arena size is enough for states
built by the parser, where children always have larger indices). -/
def decodeFrame (arena : List Frame) : Nat → Nat → Option FrameSample
  | 0, _ => none
  | fuel + 1, idx =>
    match arena[idx]? with
    | none => none
    | some f =>
      match f.children.mapM (decodeFrame arena fuel) with
      | none => none
      | some cs => some (.mk f.frame f.sample_count cs)

/-- The tree held by `self.root_frame` after the constructor finishes. -/
def ThreadTrace.rootTree (t : ThreadTrace) : Option FrameSample :=
  t.root_frame.bind (decodeFrame t.arena t.arena.length)

/-- `ThreadTrace.max_stack_depth`: `self.root_frame.height()` (`none` models
the crash on a block with no frame lines). -/
def ThreadTrace.max_stack_depth (t : ThreadTrace) : Option Nat :=
  t.rootTree.map FrameSample.height

/-! ## Report splitting (`take_until_empty_line`, `split_on_colon`) -/

/-- `take_until_empty_line`: the section up to the next blank line, and the
remaining lines from the next non-blank line on (`[]` models Python's
`None`).  Fails when nothing is left or the current first line is blank. -/
def take_until_empty_line (lines : List (List Char)) :
    Except ParseError (List (List Char) × List (List Char)) :=
  match lines with
  | [] => .error .emptySection
  | first :: _ =>
    if first.length = 0 then .error .emptySection
    else
      let empty_line_index := 1 + (lines.drop 1).findIdx (fun l => l.length == 0)
      let nonempty_line_index :=
        (empty_line_index + 1) +
          (lines.drop (empty_line_index + 1)).findIdx (fun l => l.length > 0)
      let first_lines := lines.take empty_line_index
      let rest_lines :=
        if nonempty_line_index < lines.length then lines.drop nonempty_line_index else []
      .ok (first_lines, rest_lines)

/-- The skip test of `split_on_colon`:
`"---" in line or "Heavy format" in line`. -/
def skipLine (line : List Char) : Bool :=
  hasSubstring "---".toList line || hasSubstring "Heavy format".toList line

/-- `split_on_colon`: each line not containing `"---"` or `"Heavy format"` is
split on its first colon into `(header, value.strip())`; a line without a
colon fails. -/
def split_on_colon : List (List Char) → Except ParseError (List (String × String))
  | [] => .ok []
  | line :: rest =>
    if skipLine line then
      split_on_colon rest
    else
      match line.findIdx? (fun c => c = ':') with
      | none => .error .missingColon
      | some i => do
        let header := (line.take i).asString
        let value := (pyStrip (line.drop (i + 1))).asString
        let restPairs ← split_on_colon rest
        pure ((header, value) :: restPairs)

/-! ## ProcessTrace and TraceReport -/

structure ProcessTrace where
  attributes : List (String × String)
  threads : List ThreadTrace
  deriving DecidableEq, Repr

/-- `ProcessTrace.__init__`: keep only the sections whose first line, after
`lstrip()`, starts with `"Thread"`; everything else is thrown away. -/
def ProcessTrace.ofSections (attributes : List (String × String))
    (process_sections : List (List (List Char))) : Except ParseError ProcessTrace := do
  let threadSections := process_sections.filter
    (fun sec => "Thread".toList.isPrefixOf (pyLStrip (sec.headD [])))
  let threads ← threadSections.mapM ThreadTrace.ofLines
  pure ⟨attributes, threads⟩

/-- The `for _ in range(n)` loop of `TraceReport.__init__`: consume `n`
sections, each converted by `split_on_colon`. -/
def parseSections : Nat → List (List Char) →
    Except ParseError (List (List (String × String)) × List (List Char))
  | 0, lines => .ok ([], lines)
  | k + 1, lines => do
    let (sec, rest) ← take_until_empty_line lines
    let attrs ← split_on_colon sec
    let (more, rest2) ← parseSections k rest
    pure (attrs :: more, rest2)

/-- The `while (lines is not None) and lines[0].startswith(" ")` loop
collecting process subsections (`fuel` bounds the iteration count; the
remaining line count is enough since every split consumes a line). -/
def collectProcessSections : Nat → List (List Char) →
    Except ParseError (List (List (List Char)))
  | _, [] => .ok []
  | 0, _ :: _ => .ok []
  | fuel + 1, first :: rest =>
    if (match first with | c :: _ => c = ' ' | [] => false : Bool) then do
      let (sec, rest2) ← take_until_empty_line (first :: rest)
      let more ← collectProcessSections fuel rest2
      pure (sec :: more)
    else
      .ok []

structure TraceReport where
  report_attributes : List (List (String × String))
  process_trace : ProcessTrace
  deriving DecidableEq, Repr

/-- `TraceReport.__init__`: exactly 10 header sections, then the process
header, then all leading-whitespace sections as process subsections. -/
def TraceReport.parse (lines : List (List Char)) : Except ParseError TraceReport := do
  let (report_attributes, lines1) ← parseSections 10 lines
  let (process_section, lines2) ← take_until_empty_line lines1
  let process_attributes ← split_on_colon process_section
  let process_sections ← collectProcessSections lines2.length lines2
  let pt ← ProcessTrace.ofSections process_attributes process_sections
  pure ⟨report_attributes, pt⟩

/-! ## Color engine (classes `Color`, `RGBColor`, `LabColor`, `XYZColor`)

The Python code computes with floats; the embedding idealises the arithmetic
over `ℝ`.  `int(...)` truncation toward zero is `pyTrunc`. -/

/-- Python `int(x)` on a float: truncation toward zero. -/
noncomputable def pyTrunc (x : ℝ) : ℤ := if 0 ≤ x then ⌊x⌋ else ⌈x⌉

/-- The `f` helper of `XYZColor.as_lab`. -/
noncomputable def labF (t : ℝ) : ℝ :=
  if t > (6 / 29 : ℝ) ^ (3 : ℕ) then t ^ ((1 : ℝ) / 3)
  else (1 / 3) * (29 / 6 : ℝ) ^ (2 : ℕ) * t + 4 / 29

/-- The `f_inverse` helper of `LabColor.as_xyz`. -/
noncomputable def labFInv (t : ℝ) : ℝ :=
  if t > (6 / 29 : ℝ) then t ^ (3 : ℕ)
  else 3 * (6 / 29 : ℝ) ^ (2 : ℕ) * (t - 4 / 29)

/-- `RGBColor.as_xyz`: divide by 255, multiply by the sRGB→XYZ matrix
`((0.4124, 0.3576, 0.1805), (0.2126, 0.7152, 0.0722), (0.0193, 0.1192, 0.9505))`. -/
noncomputable def rgb_to_xyz (r g b : ℝ) : ℝ × ℝ × ℝ :=
  (0.4124 * (r / 255) + 0.3576 * (g / 255) + 0.1805 * (b / 255),
   0.2126 * (r / 255) + 0.7152 * (g / 255) + 0.0722 * (b / 255),
   0.0193 * (r / 255) + 0.1192 * (g / 255) + 0.9505 * (b / 255))

/-- `XYZColor.as_rgb`: multiply by the XYZ→RGB matrix
`((3.2406, -1.5372, -0.4986), (-0.9689, 1.8758, 0.0415), (0.0557, -0.2040, 1.0570))`,
scale by 255 and truncate with `int`. -/
noncomputable def xyz_to_rgb (x y z : ℝ) : ℤ × ℤ × ℤ :=
  (pyTrunc ((3.2406 * x + (-1.5372) * y + (-0.4986) * z) * 255),
   pyTrunc (((-0.9689) * x + 1.8758 * y + 0.0415 * z) * 255),
   pyTrunc ((0.0557 * x + (-0.2040) * y + 1.0570 * z) * 255))

/-- `XYZColor._WHITE_POINT_REF = (0.95043, 1.00000, 1.08890)`. -/
noncomputable def whitePointX : ℝ := 0.95043
noncomputable def whitePointY : ℝ := 1.00000
noncomputable def whitePointZ : ℝ := 1.08890

/-- `XYZColor.as_lab`: normalise by the white point, apply `f`, then the
`L`, `a`, `b` linear combinations. -/
noncomputable def xyz_to_lab (x y z : ℝ) : ℝ × ℝ × ℝ :=
  (116 * labF (y / whitePointY) - 16,
   500 * (labF (x / whitePointX) - labF (y / whitePointY)),
   200 * (labF (y / whitePointY) - labF (z / whitePointZ)))

/-- `LabColor.as_xyz`: recover `x`, `y`, `z` from `l`, `a`, `b`, apply
`f_inverse`, de-normalise by the white point. -/
noncomputable def lab_to_xyz (l a b : ℝ) : ℝ × ℝ × ℝ :=
  (whitePointX * labFInv ((l + 16) / 116 + a / 500),
   whitePointY * labFInv ((l + 16) / 116),
   whitePointZ * labFInv ((l + 16) / 116 - b / 200))

/-- The polymorphic `Color` with its three concrete classes. -/
inductive Color where
  | rgb (r g b : ℝ)
  | lab (l a b : ℝ)
  | xyz (x y z : ℝ)

/-- `_native_components` (a 3-tuple in Python; a 3-element list here, the
shape `linear_interpolation` consumes after `list(...)`). -/
def Color.nativeComponents : Color → List ℝ
  | .rgb r g b => [r, g, b]
  | .lab l a b => [l, a, b]
  | .xyz x y z => [x, y, z]

/-- `as_xyz` of each class (`RGBColor`, `LabColor` convert; `XYZColor`
returns itself). -/
noncomputable def Color.as_xyz : Color → Color
  | .rgb r g b => let t := rgb_to_xyz r g b; .xyz t.1 t.2.1 t.2.2
  | .lab l a b => let t := lab_to_xyz l a b; .xyz t.1 t.2.1 t.2.2
  | .xyz x y z => .xyz x y z

/-- `as_lab` of each class (`RGBColor.as_lab` composes through XYZ). -/
noncomputable def Color.as_lab : Color → Color
  | .rgb r g b =>
    let t := rgb_to_xyz r g b
    let u := xyz_to_lab t.1 t.2.1 t.2.2
    .lab u.1 u.2.1 u.2.2
  | .lab l a b => .lab l a b
  | .xyz x y z => let u := xyz_to_lab x y z; .lab u.1 u.2.1 u.2.2

/-- `as_rgb` of each class (`LabColor.as_rgb` composes through XYZ; the
components of the result are the `int`-truncated values). -/
noncomputable def Color.as_rgb : Color → Color
  | .rgb r g b => .rgb r g b
  | .lab l a b =>
    let t := lab_to_xyz l a b
    let u := xyz_to_rgb t.1 t.2.1 t.2.2
    .rgb u.1 u.2.1 u.2.2
  | .xyz x y z => let u := xyz_to_rgb x y z; .rgb u.1 u.2.1 u.2.2

/-- `Color.lab_components`: `self.as_lab()._native_components()`. -/
noncomputable def Color.lab_components (c : Color) : List ℝ :=
  c.as_lab.nativeComponents

/-! ## Interpolation (`linear_interpolation`, `ColorInterpolator`,
`ColorRectInterpolator`) -/

inductive InterpError where
  | outOfRange
  | arityMismatch
  | badComponents
  deriving DecidableEq, Repr

/-- `linear_interpolation`: asserts `0.0 <= t <= 1.0`, then equal lengths,
then blends componentwise with `from_el + t * (to_el - from_el)`. -/
noncomputable def linear_interpolation (from_list to_list : List ℝ) (t : ℝ) :
    Except InterpError (List ℝ) :=
  if 0 ≤ t ∧ t ≤ 1 then
    if from_list.length = to_list.length then
      .ok (List.zipWith (fun from_el to_el => from_el + t * (to_el - from_el))
        from_list to_list)
    else .error .arityMismatch
  else .error .outOfRange

/-- `Color.lab(*components)`: unpack exactly three components. -/
def Color.labOfList : List ℝ → Except InterpError Color
  | [l, a, b] => .ok (.lab l a b)
  | _ => .error .badComponents

/-- `ColorInterpolator.__init__` stores `from_color.as_lab()` and
`to_color.as_lab()`. -/
structure ColorInterpolator where
  from_color : Color
  to_color : Color

noncomputable def ColorInterpolator.make (f t : Color) : ColorInterpolator :=
  ⟨f.as_lab, t.as_lab⟩

/-- `ColorInterpolator.color_at_pos`. -/
noncomputable def ColorInterpolator.color_at_pos (ci : ColorInterpolator)
    (position : ℝ) : Except InterpError Color := do
  let result ← linear_interpolation ci.from_color.lab_components
    ci.to_color.lab_components position
  Color.labOfList result

/-- `ColorRectInterpolator.__init__` stores the four corners unconverted. -/
structure ColorRectInterpolator where
  left_bottom_color : Color
  left_top_color : Color
  right_bottom_color : Color
  right_top_color : Color

/-- `ColorRectInterpolator.color_at_pos`: interpolate each side vertically at
`y_pos`, then horizontally at `x_pos`, all on Lab components. -/
noncomputable def ColorRectInterpolator.color_at_pos (cr : ColorRectInterpolator)
    (x_pos y_pos : ℝ) : Except InterpError Color := do
  let left ← linear_interpolation cr.left_bottom_color.lab_components
    cr.left_top_color.lab_components y_pos
  let right ← linear_interpolation cr.right_bottom_color.lab_components
    cr.right_top_color.lab_components y_pos
  let result ← linear_interpolation left right x_pos
  Color.labOfList result

/-! ## Spec-side characterisations of the layout traversal

These two definitions follow the spec's words ("pre-order: parent before
children, children in original sibling order"; "start(c2) = start(c1) +
c1.sample_count", first child at the parent's start), to be compared with
`FrameSample.iteritems`. -/

mutual

/-- Pre-order listing of the frames of a tree, as worded in the spec. -/
def preorderSpec : FrameSample → List FrameSample
  | .mk f n cs => .mk f n cs :: preorderListSpec cs

def preorderListSpec : List FrameSample → List FrameSample
  | [] => []
  | c :: cs => preorderSpec c ++ preorderListSpec cs

end

/-- The start offsets the spec assigns to a run of siblings: the first sibling
starts at the parent's start, and each next one after the previous sibling's
`sample_count`. -/
def siblingStartsSpec : List FrameSample → Nat → List (FrameSample × Nat)
  | [], _ => []
  | c :: cs, s => (c, s) :: siblingStartsSpec cs (s + c.sample_count)

/-! ## Lemmas about the traversal -/

theorem itemsGenerator_eq (f : FrameSample) (s d : Nat) :
    f.itemsGenerator s d =
      (f, s, d) :: FrameSample.itemsChildren f.child_samples s (d + 1) := by
  cases f with
  | mk fr n cs => simp [FrameSample.itemsGenerator, FrameSample.child_samples]

theorem self_mem_itemsGenerator (f : FrameSample) (s d : Nat) :
    (f, s, d) ∈ f.itemsGenerator s d := by
  rw [itemsGenerator_eq]; exact List.mem_cons_self _ _

mutual

theorem itemsGenerator_map_fst (f : FrameSample) (s d : Nat) :
    (f.itemsGenerator s d).map Prod.fst = preorderSpec f := by
  cases f with
  | mk fr n cs =>
    rw [FrameSample.itemsGenerator, preorderSpec, List.map_cons,
      itemsChildren_map_fst cs s (d + 1)]

theorem itemsChildren_map_fst (cs : List FrameSample) (s d : Nat) :
    (FrameSample.itemsChildren cs s d).map Prod.fst = preorderListSpec cs := by
  cases cs with
  | nil => rw [FrameSample.itemsChildren, preorderListSpec]; rfl
  | cons c rest =>
    rw [FrameSample.itemsChildren, preorderListSpec, List.map_append,
      itemsGenerator_map_fst c s d,
      itemsChildren_map_fst rest (s + c.sample_count) d]

end

theorem mem_itemsChildren_of_siblingStarts :
    ∀ (cs : List FrameSample) (s d : Nat) (c : FrameSample) (cS : Nat),
      (c, cS) ∈ siblingStartsSpec cs s →
      (c, cS, d) ∈ FrameSample.itemsChildren cs s d := by
  intro cs
  induction cs with
  | nil => intro s d c cS h; simp [siblingStartsSpec] at h
  | cons c0 rest ih =>
    intro s d c cS h
    rw [siblingStartsSpec] at h
    rw [FrameSample.itemsChildren]
    rcases List.mem_cons.mp h with heq | htail
    · rw [Prod.mk.injEq] at heq
      obtain ⟨rfl, rfl⟩ := heq
      exact List.mem_append_left _ (self_mem_itemsGenerator _ _ _)
    · exact List.mem_append_right _ (ih _ d c cS htail)

mutual

theorem sibling_mem_itemsGenerator (f : FrameSample) (s d : Nat)
    (g : FrameSample) (s2 d2 : Nat) (hg : (g, s2, d2) ∈ f.itemsGenerator s d)
    (c : FrameSample) (cS : Nat) (hc : (c, cS) ∈ siblingStartsSpec g.child_samples s2) :
    (c, cS, d2 + 1) ∈ f.itemsGenerator s d := by
  cases f with
  | mk fr n cs =>
    rw [FrameSample.itemsGenerator] at hg ⊢
    rcases List.mem_cons.mp hg with heq | htail
    · have h1 : g = FrameSample.mk fr n cs := congrArg Prod.fst heq
      have h2 : s2 = s := congrArg (fun p => p.2.1) heq
      have h3 : d2 = d := congrArg (fun p => p.2.2) heq
      subst h1; subst h2; subst h3
      refine List.mem_cons_of_mem _ ?_
      exact mem_itemsChildren_of_siblingStarts _ _ _ _ _ hc
    · exact List.mem_cons_of_mem _
        (sibling_mem_itemsChildren cs s (d + 1) g s2 d2 htail c cS hc)

theorem sibling_mem_itemsChildren (cs : List FrameSample) (s d : Nat)
    (g : FrameSample) (s2 d2 : Nat)
    (hg : (g, s2, d2) ∈ FrameSample.itemsChildren cs s d)
    (c : FrameSample) (cS : Nat) (hc : (c, cS) ∈ siblingStartsSpec g.child_samples s2) :
    (c, cS, d2 + 1) ∈ FrameSample.itemsChildren cs s d := by
  cases cs with
  | nil => rw [FrameSample.itemsChildren] at hg; exact absurd hg (List.not_mem_nil _)
  | cons c0 rest =>
    rw [FrameSample.itemsChildren] at hg ⊢
    rcases List.mem_append.mp hg with hleft | hright
    · exact List.mem_append_left _
        (sibling_mem_itemsGenerator c0 s d g s2 d2 hleft c cS hc)
    · exact List.mem_append_right _
        (sibling_mem_itemsChildren rest (s + c0.sample_count) d g s2 d2 hright c cS hc)

end

/-! ## Lemmas about `height` -/

theorem height_ge_one (f : FrameSample) : 1 ≤ f.height := by
  cases f with
  | mk fr n cs =>
    cases cs with
    | nil => simp [FrameSample.height]
    | cons c rest => simp [FrameSample.height]

theorem childHeightsMax_eq_foldr (cs : List FrameSample) :
    FrameSample.childHeightsMax cs = (cs.map FrameSample.height).foldr max 0 := by
  induction cs with
  | nil => rw [FrameSample.childHeightsMax]; rfl
  | cons c rest ih => rw [FrameSample.childHeightsMax, List.map_cons, List.foldr_cons, ih]

/-! ## Claim theorems -/

/-- C2: parsing the thread block `"Thread 0" / "  10 root" / "    4 childA" /
"    6 childB"` (indent unit 2) produces a root frame with `sample_count` 10
and exactly the two children `childA` (4) then `childB` (6); the layout
traversal yields exactly `(root, 0, 0)`, `(childA, 0, 1)`, `(childB, 4, 1)`
in that order; and `max_stack_depth()` of the thread equals 2. -/
theorem c2_thread_block_scenario :
    ThreadTrace.ofLines
        ["Thread 0".toList, "  10 root".toList, "    4 childA".toList,
          "    6 childB".toList] =
      .ok ⟨"Thread 0",
        [⟨"root", 10, [1, 2]⟩, ⟨"childA", 4, []⟩, ⟨"childB", 6, []⟩], some 0⟩ ∧
    ThreadTrace.rootTree
        ⟨"Thread 0",
          [⟨"root", 10, [1, 2]⟩, ⟨"childA", 4, []⟩, ⟨"childB", 6, []⟩], some 0⟩ =
      some (.mk "root" 10 [.mk "childA" 4 [], .mk "childB" 6 []]) ∧
    FrameSample.iteritems (.mk "root" 10 [.mk "childA" 4 [], .mk "childB" 6 []]) =
      [(.mk "root" 10 [.mk "childA" 4 [], .mk "childB" 6 []], 0, 0),
       (.mk "childA" 4 [], 0, 1), (.mk "childB" 6 [], 4, 1)] ∧
    ThreadTrace.max_stack_depth
        ⟨"Thread 0",
          [⟨"root", 10, [1, 2]⟩, ⟨"childA", 4, []⟩, ⟨"childB", 6, []⟩], some 0⟩ =
      some 2 := by
  refine ⟨rfl, rfl, ?_, ?_⟩
  · simp [FrameSample.iteritems, FrameSample.itemsGenerator, FrameSample.itemsChildren,
      FrameSample.sample_count]
  · have h : ThreadTrace.rootTree
        ⟨"Thread 0",
          [⟨"root", 10, [1, 2]⟩, ⟨"childA", 4, []⟩, ⟨"childB", 6, []⟩], some 0⟩ =
        some (.mk "root" 10 [.mk "childA" 4 [], .mk "childB" 6 []]) := rfl
    rw [ThreadTrace.max_stack_depth, h]
    simp [FrameSample.height, FrameSample.childHeightsMax]

/-- C3: for every frame tree, `iteritems` yields exactly one
`(frame, start, depth)` triple per frame, in pre-order (parent before
children, children in sibling order), the root triple is `(f, 0, 0)`, and
for every visited frame its children are visited at depth + 1 with the first
child starting at the parent's start and each next sibling starting after
the previous sibling's `sample_count`. -/
theorem c3_iteritems_preorder_layout (f : FrameSample) :
    (f.iteritems.map Prod.fst = preorderSpec f) ∧
    f.iteritems.head? = some (f, 0, 0) ∧
    (∀ g s d, (g, s, d) ∈ f.iteritems →
      ∀ c cS, (c, cS) ∈ siblingStartsSpec g.child_samples s →
        (c, cS, d + 1) ∈ f.iteritems) :=
  ⟨itemsGenerator_map_fst f 0 0,
   by rw [FrameSample.iteritems, itemsGenerator_eq]; rfl,
   fun g s d hg c cS hc => sibling_mem_itemsGenerator f 0 0 g s d hg c cS hc⟩

/-- C5: for every `FrameSample` `f`, `f.height() ≥ 1`; `f.height() = 1` iff
`f` has no children; and when `f` has children, `f.height()` is 1 plus the
maximum of the children's heights. -/
theorem c5_height_invariants (f : FrameSample) :
    1 ≤ f.height ∧
    (f.height = 1 ↔ f.child_samples = []) ∧
    (f.child_samples ≠ [] →
      f.height = 1 + (f.child_samples.map FrameSample.height).foldr max 0) := by
  cases f with
  | mk fr n cs =>
    cases cs with
    | nil =>
      refine ⟨?_, ?_, ?_⟩
      · simp [FrameSample.height]
      · simp [FrameSample.height, FrameSample.child_samples]
      · intro h; exact absurd rfl h
    | cons c rest =>
      have hmax : 1 ≤ FrameSample.childHeightsMax (c :: rest) := by
        rw [FrameSample.childHeightsMax]
        exact le_trans (height_ge_one c) (le_max_left _ _)
      refine ⟨?_, ?_, ?_⟩
      · rw [FrameSample.height]; simp
      · constructor
        · intro h
          rw [FrameSample.height] at h
          simp at h
          omega
        · intro h; exact absurd h (by simp [FrameSample.child_samples])
      · intro _
        rw [FrameSample.height]
        simp [FrameSample.child_samples, childHeightsMax_eq_foldr, Nat.add_comm]

/-- The record appended for a body line whose digit run starts at `idx`:
`FrameSample(frame, sample_count)` as built by `ThreadTrace.__init__`. -/
def lineFrame (line : List Char) (idx : Nat) : Frame :=
  ⟨((line.drop (idx + ((line.drop idx).takeWhile Char.isDigit).length + 1)).asString),
   natOfDigits ((line.drop idx).takeWhile Char.isDigit), []⟩

theorem parseLine_unfold (s : ThreadState) (line : List Char) (idx : Nat)
    (hfind : line.findIdx? Char.isDigit = some idx) (hmod : idx % 2 = 0) :
    ThreadTrace.parseLine s line =
      match (truncatedStack s.stack (idx / 2)).getLast? with
      | some parent =>
        .ok ⟨addChildSample (s.arena ++ [lineFrame line idx]) parent s.arena.length,
          s.root_frame, truncatedStack s.stack (idx / 2) ++ [s.arena.length]⟩
      | none =>
        match s.root_frame with
        | some _ => .error .multipleRoots
        | none => .ok ⟨s.arena ++ [lineFrame line idx], some s.arena.length,
            truncatedStack s.stack (idx / 2) ++ [s.arena.length]⟩ := by
  rw [ThreadTrace.parseLine, hfind]
  simp only [hmod, ne_eq, not_true_eq_false, if_false, ite_false, lineFrame]

/-- C1: for a body line whose digit run starts at column `2 * n` with
`n ≥ 1`, whenever the stack has length ≥ `n` the parser truncates it to
length `n - 1` (`stack[:n-1]`), then attaches the new frame as the last
child of the frame now on top of the truncated stack — or makes it the
thread root if the truncated stack is empty and no root exists (failing if
one does) — and finally pushes the new frame. -/
theorem c1_truncate_attach_push (s : ThreadState) (line : List Char) (n : Nat)
    (hfind : line.findIdx? Char.isDigit = some (2 * n)) (hn : 1 ≤ n)
    (hlen : n ≤ s.stack.length) :
    truncatedStack s.stack n = s.stack.take (n - 1) ∧
    (s.stack.take (n - 1)).length = n - 1 ∧
    (∀ parent, (s.stack.take (n - 1)).getLast? = some parent →
      ∃ st : ThreadState, ThreadTrace.parseLine s line = .ok st ∧
        st.stack = s.stack.take (n - 1) ++ [s.arena.length] ∧
        st.root_frame = s.root_frame ∧
        ∀ old, s.arena[parent]? = some old →
          st.arena[parent]? =
            some ⟨old.frame, old.sample_count, old.children ++ [s.arena.length]⟩) ∧
    (s.stack.take (n - 1) = [] → s.root_frame = none →
      ∃ st : ThreadState, ThreadTrace.parseLine s line = .ok st ∧
        st.stack = [s.arena.length] ∧ st.root_frame = some s.arena.length) ∧
    (s.stack.take (n - 1) = [] → s.root_frame ≠ none →
      ThreadTrace.parseLine s line = .error .multipleRoots) := by
  obtain ⟨m, rfl⟩ : ∃ m, n = m + 1 := ⟨n - 1, by omega⟩
  have hdiv : 2 * (m + 1) / 2 = m + 1 := by omega
  have htr : truncatedStack s.stack (m + 1) = s.stack.take m := by
    rw [truncatedStack, if_pos hlen, sliceStop]
  have hunfold := parseLine_unfold s line (2 * (m + 1)) hfind (by omega)
  rw [hdiv, htr] at hunfold
  have hm : m + 1 - 1 = m := rfl
  rw [hm]
  refine ⟨htr, ?_, ?_, ?_, ?_⟩
  · rw [List.length_take]; omega
  · intro parent hp
    rw [hp] at hunfold
    refine ⟨_, hunfold, rfl, rfl, ?_⟩
    intro old hold
    have hlt : parent < s.arena.length := by
      by_contra hge
      rw [List.getElem?_eq_none (by omega)] at hold
      exact Option.noConfusion hold
    show (addChildSample (s.arena ++ [lineFrame line (2 * (m + 1))]) parent
      s.arena.length)[parent]? = _
    rw [addChildSample, List.getElem?_append_left (by simpa using by omega), hold]
    rw [List.getElem?_set_self (by simpa using by omega)]
  · intro hempty hroot
    rw [hempty] at hunfold
    simp only [List.getLast?_nil] at hunfold
    rw [hroot] at hunfold
    exact ⟨_, hunfold, by simp, rfl⟩
  · intro hempty hroot
    rw [hempty] at hunfold
    simp only [List.getLast?_nil] at hunfold
    match hr : s.root_frame with
    | some r => rw [hr] at hunfold; exact hunfold
    | none => exact absurd hr hroot

theorem c1_truncate_attach_push_witness :
    ∃ st : ThreadState,
      ThreadTrace.parseLine ⟨[⟨"root", 10, []⟩, ⟨"a", 4, []⟩], some 0, [0, 1]⟩
          "    6 childB".toList = .ok st ∧
      st.stack = [0, 2] := by
  obtain ⟨-, -, h, -, -⟩ := c1_truncate_attach_push
    ⟨[⟨"root", 10, []⟩, ⟨"a", 4, []⟩], some 0, [0, 1]⟩ "    6 childB".toList 2
    (by decide) (by decide) (by decide)
  obtain ⟨st, hok, hstack, -, -⟩ := h 0 (by decide)
  exact ⟨st, hok, by rw [hstack]; rfl⟩

/-- C10: for a body line whose digit run starts at column 0
(`nested_level = 0`), the slice `stack[:nested_level - 1]` is `stack[:-1]`,
which removes only the topmost frame; with two or more open frames the new
frame is attached as a child of the second-from-top frame (no multiple-root
error), rather than the stack being cleared and the frame becoming a root. -/
theorem c10_zero_indent_pops_one_frame (s : ThreadState) (line : List Char)
    (hfind : line.findIdx? Char.isDigit = some 0) (hlen : 2 ≤ s.stack.length) :
    truncatedStack s.stack 0 = s.stack.dropLast ∧
    (truncatedStack s.stack 0).length = s.stack.length - 1 ∧
    ∃ parent st, s.stack.dropLast.getLast? = some parent ∧
      ThreadTrace.parseLine s line = .ok st ∧
      st.root_frame = s.root_frame ∧
      st.stack = s.stack.dropLast ++ [s.arena.length] ∧
      (∀ old, s.arena[parent]? = some old →
        st.arena[parent]? =
          some ⟨old.frame, old.sample_count, old.children ++ [s.arena.length]⟩) := by
  have htr : truncatedStack s.stack 0 = s.stack.dropLast := by
    rw [truncatedStack, if_pos (Nat.zero_le _), sliceStop, ← List.dropLast_eq_take]
  have hunfold := parseLine_unfold s line 0 hfind rfl
  have h02 : (0 : Nat) / 2 = 0 := rfl
  rw [h02, htr] at hunfold
  refine ⟨htr, by rw [htr, List.length_dropLast], ?_⟩
  cases hk : s.stack.dropLast.getLast? with
  | none =>
    rw [List.getLast?_eq_none_iff] at hk
    have : s.stack.dropLast.length = s.stack.length - 1 := List.length_dropLast _
    rw [hk] at this
    simp at this
    omega
  | some parent =>
    rw [hk] at hunfold
    refine ⟨parent, _, rfl, hunfold, rfl, rfl, ?_⟩
    intro old hold
    have hlt : parent < s.arena.length := by
      by_contra hge
      rw [List.getElem?_eq_none (by omega)] at hold
      exact Option.noConfusion hold
    show (addChildSample (s.arena ++ [lineFrame line 0]) parent
      s.arena.length)[parent]? = _
    rw [addChildSample, List.getElem?_append_left (by simpa using by omega), hold]
    rw [List.getElem?_set_self (by simpa using by omega)]

theorem c10_zero_indent_pops_one_frame_witness :
    ∃ st : ThreadState,
      ThreadTrace.parseLine ⟨[⟨"root", 10, []⟩, ⟨"a", 4, []⟩], some 0, [0, 1]⟩
          "5 x".toList = .ok st ∧
      st.stack = [0, 2] ∧ st.root_frame = some 0 := by
  obtain ⟨-, -, parent, st, hp, hok, hroot, hstack, -⟩ := c10_zero_indent_pops_one_frame
    ⟨[⟨"root", 10, []⟩, ⟨"a", 4, []⟩], some 0, [0, 1]⟩ "5 x".toList
    (by decide) (by decide)
  exact ⟨st, hok, by rw [hstack]; rfl, by rw [hroot]⟩

/-- C4: the structural parse errors arise in exactly these situations —
a section split on an exhausted buffer or on a blank first line; a
key/value line (not a separator or title line) without a colon; a thread
body line without a digit run, with a digit run starting at an odd column,
or inferring a second root for the thread.  Each is an `Except.error`, so
no partial result is produced. -/
theorem c4_error_taxonomy :
    (∀ lines, (∃ e, take_until_empty_line lines = .error e) ↔
      (lines = [] ∨ lines.head? = some [])) ∧
    (∀ lines, (∃ e, split_on_colon lines = .error e) ↔
      (∃ l ∈ lines, skipLine l = false ∧ l.findIdx? (fun c => c = ':') = none)) ∧
    (∀ (s : ThreadState) (line : List Char),
      (∃ e, ThreadTrace.parseLine s line = .error e) ↔
        (match line.findIdx? Char.isDigit with
          | none => True
          | some i =>
            i % 2 ≠ 0 ∨ (truncatedStack s.stack (i / 2) = [] ∧ s.root_frame ≠ none))) := by
  refine ⟨?_, ?_, ?_⟩
  · intro lines
    cases lines with
    | nil => exact ⟨fun _ => Or.inl rfl, fun _ => ⟨.emptySection, rfl⟩⟩
    | cons first rest =>
      by_cases h : first.length = 0
      · constructor
        · intro _
          exact Or.inr (by rw [List.head?_cons, List.length_eq_zero.mp h])
        · intro _
          exact ⟨.emptySection, by rw [take_until_empty_line, if_pos h]⟩
      · constructor
        · intro ⟨e, he⟩
          rw [take_until_empty_line, if_neg h] at he
          exact Except.noConfusion he
        · intro hr
          rcases hr with habs | habs
          · exact List.noConfusion habs
          · rw [List.head?_cons, Option.some.injEq] at habs
            exact absurd (habs ▸ rfl) h
  · intro lines
    induction lines with
    | nil =>
      constructor
      · intro ⟨e, he⟩; rw [split_on_colon] at he; exact Except.noConfusion he
      · intro ⟨l, hl, _⟩; exact absurd hl (List.not_mem_nil l)
    | cons line rest ih =>
      by_cases hs : skipLine line
      · rw [split_on_colon, if_pos hs]
        rw [ih]
        constructor
        · intro ⟨l, hl, hns, hnc⟩; exact ⟨l, List.mem_cons_of_mem _ hl, hns, hnc⟩
        · intro ⟨l, hl, hns, hnc⟩
          rcases List.mem_cons.mp hl with rfl | hl2
          · rw [hs] at hns; exact Bool.noConfusion hns
          · exact ⟨l, hl2, hns, hnc⟩
      · cases hf : line.findIdx? (fun c => c = ':') with
        | none =>
          constructor
          · intro _
            exact ⟨line, List.mem_cons_self _ _, Bool.not_eq_true _ ▸ hs, hf⟩
          · intro _
            exact ⟨.missingColon, by rw [split_on_colon, if_neg hs, hf]⟩
        | some i =>
          rw [split_on_colon, if_neg hs, hf]
          cases hr : split_on_colon rest with
          | error e =>
            simp only [hr, bind, Except.bind]
            constructor
            · intro _
              obtain ⟨l, hl, hns, hnc⟩ := ih.mp ⟨e, hr⟩
              exact ⟨l, List.mem_cons_of_mem _ hl, hns, hnc⟩
            · intro _; exact ⟨e, rfl⟩
          | ok pairs =>
            simp only [hr, bind, Except.bind]
            constructor
            · intro ⟨e, he⟩; exact Except.noConfusion he
            · intro ⟨l, hl, hns, hnc⟩
              rcases List.mem_cons.mp hl with rfl | hl2
              · rw [hf] at hnc; exact Option.noConfusion hnc
              · obtain ⟨e, he⟩ := ih.mpr ⟨l, hl2, hns, hnc⟩
                rw [he] at hr; exact Except.noConfusion hr
  · intro s line
    cases hf : line.findIdx? Char.isDigit with
    | none =>
      simp only [hf]
      exact ⟨fun _ => trivial, fun _ => ⟨.noDigitRun, by rw [ThreadTrace.parseLine, hf]⟩⟩
    | some i =>
      simp only [hf]
      by_cases hm : i % 2 = 0
      · have hunfold := parseLine_unfold s line i hf hm
        cases hk : (truncatedStack s.stack (i / 2)).getLast? with
        | some parent =>
          rw [hk] at hunfold
          constructor
          · intro ⟨e, he⟩; rw [hunfold] at he; exact Except.noConfusion he
          · intro hr
            rcases hr with habs | ⟨hempty, _⟩
            · exact absurd hm habs
            · rw [hempty] at hk; exact Option.noConfusion hk
        | none =>
          rw [List.getLast?_eq_none_iff] at hk
          cases hroot : s.root_frame with
          | some r =>
            constructor
            · intro _
              exact Or.inr ⟨hk, fun habs => Option.noConfusion habs⟩
            · intro _
              refine ⟨.multipleRoots, ?_⟩
              rw [hunfold, hk, hroot]
              simp [List.getLast?_nil]
          | none =>
            constructor
            · intro ⟨e, he⟩
              rw [hunfold, hk, hroot] at he
              simp only [List.getLast?_nil] at he
              exact Except.noConfusion he
            · intro hr
              rcases hr with habs | ⟨_, habs⟩
              · exact absurd hm habs
              · exact absurd rfl habs
      · constructor
        · intro _; exact Or.inl hm
        · intro _
          refine ⟨.badIndentation, ?_⟩
          simp [ThreadTrace.parseLine, hf, hm]

theorem parseSections_ok_length :
    ∀ (k : Nat) (lines : List (List Char)) res rest,
      parseSections k lines = .ok (res, rest) → res.length = k := by
  intro k
  induction k with
  | zero =>
    intro lines res rest h
    rw [parseSections] at h
    obtain ⟨h1, -⟩ := Prod.mk.injEq .. ▸ Except.ok.injEq .. ▸ h
    rw [← h1]
    rfl
  | succ k ih =>
    intro lines res rest h
    rw [parseSections] at h
    cases h1 : take_until_empty_line lines with
    | error e => rw [h1] at h; exact Except.noConfusion h
    | ok p =>
      obtain ⟨sec, rest1⟩ := p
      rw [h1] at h
      simp only [bind, Except.bind] at h
      cases h2 : split_on_colon sec with
      | error e => rw [h2] at h; exact Except.noConfusion h
      | ok attrs =>
        rw [h2] at h
        cases h3 : parseSections k rest1 with
        | error e => rw [h3] at h; exact Except.noConfusion h
        | ok q =>
          obtain ⟨more, rest2⟩ := q
          rw [h3] at h
          simp only [pure, Except.pure, Except.ok.injEq, Prod.mk.injEq] at h
          obtain ⟨h4, -⟩ := h
          rw [← h4, List.length_cons, ih rest1 more rest2 h3]

/-- C8: report parsing consumes exactly 10 header sections (each parsed to a
key/value list); `"Process: foo"` parses to the pair `("Process", "foo")`
with only the value trimmed; and a line holding a horizontal-rule marker or
a known section-title marker is skipped, not parsed as a key/value pair. -/
theorem c8_ten_header_sections :
    (∀ lines r, TraceReport.parse lines = .ok r → r.report_attributes.length = 10) ∧
    split_on_colon ["Process: foo".toList] = .ok [("Process", "foo")] ∧
    (∀ line rest, skipLine line = true →
      split_on_colon (line :: rest) = split_on_colon rest) ∧
    split_on_colon ["--- separator ---".toList] = .ok [] ∧
    split_on_colon ["Heavy format of stacks are of the form".toList] = .ok [] := by
  refine ⟨?_, rfl, ?_, rfl, rfl⟩
  · intro lines r h
    rw [TraceReport.parse] at h
    cases h1 : parseSections 10 lines with
    | error e => rw [h1] at h; exact Except.noConfusion h
    | ok p =>
      obtain ⟨ras, lines1⟩ := p
      rw [h1] at h
      simp only [bind, Except.bind] at h
      cases h2 : take_until_empty_line lines1 with
      | error e => rw [h2] at h; exact Except.noConfusion h
      | ok q =>
        obtain ⟨psec, lines2⟩ := q
        rw [h2] at h
        dsimp only at h
        cases h3 : split_on_colon psec with
        | error e => rw [h3] at h; exact Except.noConfusion h
        | ok pattrs =>
          rw [h3] at h
          cases h4 : collectProcessSections lines2.length lines2 with
          | error e => rw [h4] at h; exact Except.noConfusion h
          | ok psections =>
            rw [h4] at h
            dsimp only at h
            cases h5 : ProcessTrace.ofSections pattrs psections with
            | error e => rw [h5] at h; exact Except.noConfusion h
            | ok pt =>
              rw [h5] at h
              simp only [pure, Except.pure, Except.ok.injEq] at h
              rw [← h]
              exact parseSections_ok_length 10 lines ras lines1 h1
  · intro line rest h
    rw [split_on_colon, if_pos h]

/-- C9: `linear_interpolation` fails (it raises rather than clamping)
whenever `t` is outside `[0, 1]`, and whenever the two component lists do
not have equal arity; for `t` inside `[0, 1]` (and equal arity, the only
case arising from the fixed 3-component colors) it succeeds with the
componentwise blend. -/
theorem c9_interpolation_domain :
    (∀ (a b : List ℝ) (t : ℝ), ¬(0 ≤ t ∧ t ≤ 1) →
      linear_interpolation a b t = .error .outOfRange) ∧
    (∀ (a b : List ℝ) (t : ℝ), 0 ≤ t → t ≤ 1 → a.length ≠ b.length →
      linear_interpolation a b t = .error .arityMismatch) ∧
    (∀ (a b : List ℝ) (t : ℝ), 0 ≤ t → t ≤ 1 → a.length = b.length →
      linear_interpolation a b t =
        .ok (List.zipWith (fun from_el to_el => from_el + t * (to_el - from_el)) a b)) := by
  refine ⟨?_, ?_, ?_⟩
  · intro a b t ht
    rw [linear_interpolation, if_neg ht]
  · intro a b t h0 h1 hlen
    rw [linear_interpolation, if_pos ⟨h0, h1⟩, if_neg hlen]
  · intro a b t h0 h1 hlen
    rw [linear_interpolation, if_pos ⟨h0, h1⟩, if_pos hlen]
/-- Every color's `as_lab` is a `LabColor`, and `lab_components` is its
3-element component list. -/
theorem as_lab_shape (c : Color) :
    ∃ l a b : ℝ, c.as_lab = Color.lab l a b ∧ c.lab_components = [l, a, b] := by
  cases c with
  | rgb r g b => exact ⟨_, _, _, rfl, rfl⟩
  | lab l a b => exact ⟨l, a, b, rfl, rfl⟩
  | xyz x y z => exact ⟨_, _, _, rfl, rfl⟩

theorem lerp_zero (u1 u2 u3 v1 v2 v3 : ℝ) :
    linear_interpolation [u1, u2, u3] [v1, v2, v3] 0 = .ok [u1, u2, u3] := by
  have hl : ([u1, u2, u3] : List ℝ).length = ([v1, v2, v3] : List ℝ).length := rfl
  rw [linear_interpolation, if_pos ⟨le_refl 0, zero_le_one⟩, if_pos hl]
  norm_num [List.zipWith]

theorem lerp_one (u1 u2 u3 v1 v2 v3 : ℝ) :
    linear_interpolation [u1, u2, u3] [v1, v2, v3] 1 = .ok [v1, v2, v3] := by
  have hl : ([u1, u2, u3] : List ℝ).length = ([v1, v2, v3] : List ℝ).length := rfl
  rw [linear_interpolation, if_pos ⟨zero_le_one, le_refl 1⟩, if_pos hl]
  norm_num [List.zipWith]

theorem lerp_half (u1 u2 u3 v1 v2 v3 : ℝ) :
    linear_interpolation [u1, u2, u3] [v1, v2, v3] (1 / 2) =
      .ok [(u1 + v1) / 2, (u2 + v2) / 2, (u3 + v3) / 2] := by
  have hl : ([u1, u2, u3] : List ℝ).length = ([v1, v2, v3] : List ℝ).length := rfl
  rw [linear_interpolation, if_pos ⟨by norm_num, by norm_num⟩, if_pos hl]
  simp only [List.zipWith, Except.ok.injEq, List.cons.injEq, and_true]
  refine ⟨by ring, by ring, by ring⟩

/-- C6: `ColorInterpolator` at 0.0 returns exactly the from-color's Lab
components, at 1.0 the to-color's, at 0.5 the componentwise Lab midpoint;
and `ColorRectInterpolator.color_at_pos` at (0,0), (1,0), (0,1), (1,1)
returns exactly the left-bottom, right-bottom, left-top, right-top corner
colors respectively, as their Lab components. -/
theorem c6_interpolation_endpoints :
    (∀ c1 c2 : Color,
      (ColorInterpolator.make c1 c2).color_at_pos 0 = .ok c1.as_lab) ∧
    (∀ c1 c2 : Color,
      (ColorInterpolator.make c1 c2).color_at_pos 1 = .ok c2.as_lab) ∧
    (∀ c1 c2 : Color,
      (ColorInterpolator.make c1 c2).color_at_pos (1 / 2) =
        Color.labOfList
          (List.zipWith (fun u v => (u + v) / 2) c1.lab_components c2.lab_components)) ∧
    (∀ lb lt rb rt : Color,
      (ColorRectInterpolator.mk lb lt rb rt).color_at_pos 0 0 = .ok lb.as_lab ∧
      (ColorRectInterpolator.mk lb lt rb rt).color_at_pos 1 0 = .ok rb.as_lab ∧
      (ColorRectInterpolator.mk lb lt rb rt).color_at_pos 0 1 = .ok lt.as_lab ∧
      (ColorRectInterpolator.mk lb lt rb rt).color_at_pos 1 1 = .ok rt.as_lab) := by
  have hlab : ∀ c : Color, Color.lab_components c.as_lab = Color.lab_components c := by
    intro c
    obtain ⟨l, a, b, h1, h2⟩ := as_lab_shape c
    rw [h1, h2]
    rfl
  refine ⟨?_, ?_, ?_, ?_⟩
  · intro c1 c2
    obtain ⟨l1, a1, b1, h1, h1c⟩ := as_lab_shape c1
    obtain ⟨l2, a2, b2, h2, h2c⟩ := as_lab_shape c2
    rw [ColorInterpolator.color_at_pos, ColorInterpolator.make]
    dsimp only
    rw [hlab c1, hlab c2, h1c, h2c, lerp_zero]
    simp only [bind, Except.bind]
    rw [h1]
    rfl
  · intro c1 c2
    obtain ⟨l1, a1, b1, h1, h1c⟩ := as_lab_shape c1
    obtain ⟨l2, a2, b2, h2, h2c⟩ := as_lab_shape c2
    rw [ColorInterpolator.color_at_pos, ColorInterpolator.make]
    dsimp only
    rw [hlab c1, hlab c2, h1c, h2c, lerp_one]
    simp only [bind, Except.bind]
    rw [h2]
    rfl
  · intro c1 c2
    obtain ⟨l1, a1, b1, h1, h1c⟩ := as_lab_shape c1
    obtain ⟨l2, a2, b2, h2, h2c⟩ := as_lab_shape c2
    rw [ColorInterpolator.color_at_pos, ColorInterpolator.make]
    dsimp only
    rw [hlab c1, hlab c2, h1c, h2c, lerp_half]
    simp only [bind, Except.bind]
    rfl
  · intro lb lt rb rt
    obtain ⟨l1, a1, b1, h1, h1c⟩ := as_lab_shape lb
    obtain ⟨l2, a2, b2, h2, h2c⟩ := as_lab_shape lt
    obtain ⟨l3, a3, b3, h3, h3c⟩ := as_lab_shape rb
    obtain ⟨l4, a4, b4, h4, h4c⟩ := as_lab_shape rt
    refine ⟨?_, ?_, ?_, ?_⟩
    · rw [ColorRectInterpolator.color_at_pos]
      dsimp only
      rw [h1c, h2c, h3c, h4c, lerp_zero, lerp_zero]
      simp only [bind, Except.bind]
      rw [lerp_zero]
      rw [h1]
      rfl
    · rw [ColorRectInterpolator.color_at_pos]
      dsimp only
      rw [h1c, h2c, h3c, h4c, lerp_zero, lerp_zero]
      simp only [bind, Except.bind]
      rw [lerp_one]
      rw [h3]
      rfl
    · rw [ColorRectInterpolator.color_at_pos]
      dsimp only
      rw [h1c, h2c, h3c, h4c, lerp_one, lerp_one]
      simp only [bind, Except.bind]
      rw [lerp_zero]
      rw [h2]
      rfl
    · rw [ColorRectInterpolator.color_at_pos]
      dsimp only
      rw [h1c, h2c, h3c, h4c, lerp_one, lerp_one]
      simp only [bind, Except.bind]
      rw [lerp_one]
      rw [h4]
      rfl

/-- `f_inverse(f(t)) = t` for `t ≥ 0`: the two branch conditions of the Lab
conversion helpers line up exactly at `t = (6/29)^3`. -/
theorem labFInv_labF (t : ℝ) (ht : 0 ≤ t) : labFInv (labF t) = t := by
  rw [labF]
  by_cases h : t > (6 / 29 : ℝ) ^ (3 : ℕ)
  · rw [if_pos h, labFInv]
    have hcube : ((6 / 29 : ℝ) ^ (3 : ℕ)) ^ ((1 : ℝ) / 3) = 6 / 29 := by
      rw [← Real.rpow_natCast (6 / 29 : ℝ) 3, ← Real.rpow_mul (by norm_num)]
      norm_num
    have ht3 : t ^ ((1 : ℝ) / 3) > 6 / 29 := by
      calc (6 / 29 : ℝ) = ((6 / 29 : ℝ) ^ (3 : ℕ)) ^ ((1 : ℝ) / 3) := hcube.symm
        _ < t ^ ((1 : ℝ) / 3) :=
            Real.rpow_lt_rpow (by norm_num) h (by norm_num)
    rw [if_pos ht3]
    rw [← Real.rpow_natCast (t ^ ((1 : ℝ) / 3)) 3, ← Real.rpow_mul ht]
    norm_num
  · rw [if_neg h, labFInv]
    push_neg at h
    have h2 : ((29 : ℝ) / 6) ^ (2 : ℕ) = 841 / 36 := by norm_num
    have h3 : ((6 : ℝ) / 29) ^ (2 : ℕ) = 36 / 841 := by norm_num
    have hle : 1 / 3 * (29 / 6 : ℝ) ^ (2 : ℕ) * t + 4 / 29 ≤ 6 / 29 := by
      rw [h2]
      have ht216 : t ≤ 216 / 24389 := by
        have : ((6 : ℝ) / 29) ^ (3 : ℕ) = 216 / 24389 := by norm_num
        linarith [this ▸ h]
      linarith
    rw [if_neg (not_lt.mpr hle)]
    rw [h3]
    ring

/-- XYZ → Lab → XYZ is exact (in real arithmetic) on nonnegative
components. -/
theorem lab_to_xyz_xyz_to_lab (x y z : ℝ) (hx : 0 ≤ x) (hy : 0 ≤ y) (hz : 0 ≤ z) :
    lab_to_xyz (xyz_to_lab x y z).1 (xyz_to_lab x y z).2.1 (xyz_to_lab x y z).2.2 =
      (x, y, z) := by
  have wpx : (0 : ℝ) < whitePointX := by rw [whitePointX]; norm_num
  have wpy : (0 : ℝ) < whitePointY := by rw [whitePointY]; norm_num
  have wpz : (0 : ℝ) < whitePointZ := by rw [whitePointZ]; norm_num
  dsimp [xyz_to_lab, lab_to_xyz]
  have e1 : (116 * labF (y / whitePointY) - 16 + 16) / 116 +
      500 * (labF (x / whitePointX) - labF (y / whitePointY)) / 500 =
      labF (x / whitePointX) := by ring
  have e2 : (116 * labF (y / whitePointY) - 16 + 16) / 116 =
      labF (y / whitePointY) := by ring
  have e3 : labF (y / whitePointY) -
      200 * (labF (y / whitePointY) - labF (z / whitePointZ)) / 200 =
      labF (z / whitePointZ) := by ring
  rw [e1, e2, e3]
  rw [labFInv_labF _ (div_nonneg hx (le_of_lt wpx)),
    labFInv_labF _ (div_nonneg hy (le_of_lt wpy)),
    labFInv_labF _ (div_nonneg hz (le_of_lt wpz))]
  rw [Prod.mk.injEq, Prod.mk.injEq]
  refine ⟨?_, ?_, ?_⟩
  · rw [mul_comm, div_mul_cancel₀ _ (ne_of_gt wpx)]
  · rw [mul_comm, div_mul_cancel₀ _ (ne_of_gt wpy)]
  · rw [mul_comm, div_mul_cancel₀ _ (ne_of_gt wpz)]

/-- The XYZ components of an RGB color with nonnegative components are
nonnegative. -/
theorem rgb_to_xyz_nonneg (r g b : ℝ) (hr : 0 ≤ r) (hg : 0 ≤ g) (hb : 0 ≤ b) :
    0 ≤ (rgb_to_xyz r g b).1 ∧ 0 ≤ (rgb_to_xyz r g b).2.1 ∧
      0 ≤ (rgb_to_xyz r g b).2.2 := by
  dsimp [rgb_to_xyz]
  refine ⟨?_, ?_, ?_⟩ <;> nlinarith

/-- RGB → Lab → RGB follows exactly the same computation as RGB → XYZ → RGB
for nonnegative components: the intermediate Lab conversion cancels. -/
theorem as_lab_as_rgb_eq (r g b : ℝ) (hr : 0 ≤ r) (hg : 0 ≤ g) (hb : 0 ≤ b) :
    (Color.rgb r g b).as_lab.as_rgb = (Color.rgb r g b).as_xyz.as_rgb := by
  obtain ⟨hX, hY, hZ⟩ := rgb_to_xyz_nonneg r g b hr hg hb
  have hround := lab_to_xyz_xyz_to_lab (rgb_to_xyz r g b).1 (rgb_to_xyz r g b).2.1
    (rgb_to_xyz r g b).2.2 hX hY hZ
  dsimp only [Color.as_lab, Color.as_rgb, Color.as_xyz]
  rw [hround]

/-- Python `int()` truncation of a real within distance 1 of a natural
number `n` lands within ±1 of `n`. -/
theorem pyTrunc_near (n : ℕ) (e : ℝ) (h1 : (n : ℝ) - 1 < e) (h2 : e < (n : ℝ) + 1) :
    |pyTrunc e - (n : ℤ)| ≤ 1 := by
  rw [pyTrunc]
  by_cases h : 0 ≤ e
  · rw [if_pos h]
    have hub : ⌊e⌋ < (n : ℤ) + 1 := by
      apply Int.floor_lt.mpr
      push_cast
      linarith
    have hlb : (n : ℤ) - 2 < ⌊e⌋ := by
      have hfl := Int.sub_one_lt_floor e
      have h3 : ((n : ℤ) - 2 : ℝ) < (⌊e⌋ : ℝ) := by push_cast; linarith
      exact_mod_cast h3
    rw [abs_le]
    omega
  · rw [if_neg h]
    push_neg at h
    have hn0 : n = 0 := by
      by_contra hne
      have : (1 : ℝ) ≤ (n : ℝ) := by exact_mod_cast Nat.one_le_iff_ne_zero.mpr hne
      linarith
    subst hn0
    have hc1 : ⌈e⌉ ≤ 0 := Int.ceil_le.mpr (by push_cast; linarith)
    have hc2 : (-1 : ℤ) < ⌈e⌉ := by
      have h3 : ((-1 : ℤ) : ℝ) < (⌈e⌉ : ℝ) := by push_cast; linarith [Int.le_ceil e]
      exact_mod_cast h3
    rw [abs_le]
    omega

set_option maxHeartbeats 2000000 in
/-- C7: for every RGB color with integer components in 0..255, both
round-trips RGB → XYZ → RGB and RGB → Lab → RGB (with `int` truncation at
the end, in exact real arithmetic) reproduce each component to within ±1. -/
theorem c7_rgb_roundtrip (r g b : ℕ) (hr : r ≤ 255) (hg : g ≤ 255) (hb : b ≤ 255) :
    ∃ r1 g1 b1 r2 g2 b2 : ℤ,
      (Color.rgb (r : ℝ) (g : ℝ) (b : ℝ)).as_xyz.as_rgb =
        Color.rgb (r1 : ℝ) (g1 : ℝ) (b1 : ℝ) ∧
      (Color.rgb (r : ℝ) (g : ℝ) (b : ℝ)).as_lab.as_rgb =
        Color.rgb (r2 : ℝ) (g2 : ℝ) (b2 : ℝ) ∧
      |r1 - (r : ℤ)| ≤ 1 ∧ |g1 - (g : ℤ)| ≤ 1 ∧ |b1 - (b : ℤ)| ≤ 1 ∧
      |r2 - (r : ℤ)| ≤ 1 ∧ |g2 - (g : ℤ)| ≤ 1 ∧ |b2 - (b : ℤ)| ≤ 1 := by
  have hr0 : (0 : ℝ) ≤ (r : ℝ) := Nat.cast_nonneg r
  have hg0 : (0 : ℝ) ≤ (g : ℝ) := Nat.cast_nonneg g
  have hb0 : (0 : ℝ) ≤ (b : ℝ) := Nat.cast_nonneg b
  have hr1 : (r : ℝ) ≤ 255 := by exact_mod_cast hr
  have hg1 : (g : ℝ) ≤ 255 := by exact_mod_cast hg
  have hb1 : (b : ℝ) ≤ 255 := by exact_mod_cast hb
  have hlabeq := as_lab_as_rgb_eq (r : ℝ) (g : ℝ) (b : ℝ) hr0 hg0 hb0
  dsimp only [Color.as_xyz, Color.as_rgb, rgb_to_xyz, xyz_to_rgb] at hlabeq ⊢
  refine ⟨_, _, _, _, _, _, rfl, hlabeq, ?_, ?_, ?_, ?_, ?_, ?_⟩
  · refine pyTrunc_near r _ ?_ ?_ <;> nlinarith
  · refine pyTrunc_near g _ ?_ ?_ <;> nlinarith
  · refine pyTrunc_near b _ ?_ ?_ <;> nlinarith
  · refine pyTrunc_near r _ ?_ ?_ <;> nlinarith
  · refine pyTrunc_near g _ ?_ ?_ <;> nlinarith
  · refine pyTrunc_near b _ ?_ ?_ <;> nlinarith

theorem c7_rgb_roundtrip_witness :
    (255 : ℕ) ≤ 255 ∧ (128 : ℕ) ≤ 255 ∧ (0 : ℕ) ≤ 255 ∧
    ∃ r1 g1 b1 r2 g2 b2 : ℤ,
      (Color.rgb ((255 : ℕ) : ℝ) ((128 : ℕ) : ℝ) ((0 : ℕ) : ℝ)).as_xyz.as_rgb =
        Color.rgb (r1 : ℝ) (g1 : ℝ) (b1 : ℝ) ∧
      (Color.rgb ((255 : ℕ) : ℝ) ((128 : ℕ) : ℝ) ((0 : ℕ) : ℝ)).as_lab.as_rgb =
        Color.rgb (r2 : ℝ) (g2 : ℝ) (b2 : ℝ) ∧
      |r1 - ((255 : ℕ) : ℤ)| ≤ 1 ∧ |g1 - ((128 : ℕ) : ℤ)| ≤ 1 ∧
      |b1 - ((0 : ℕ) : ℤ)| ≤ 1 ∧
      |r2 - ((255 : ℕ) : ℤ)| ≤ 1 ∧ |g2 - ((128 : ℕ) : ℤ)| ≤ 1 ∧
      |b2 - ((0 : ℕ) : ℤ)| ≤ 1 :=
  ⟨by decide, by decide, by decide,
   c7_rgb_roundtrip 255 128 0 (by decide) (by decide) (by decide)⟩
